import Mathlib

/-!
Verification of `cpp_core_core/get_all_source_files.py`.

Shallow embedding conventions:
* An absolute, canonical filesystem path is a `List String` of segments
  (the root `/` is `[]`).  `Path.resolve()` is the identity on such paths;
  resolution of a relative path against a base is list append.
* The filesystem is a finite tree (`Node` / `Dirents`); `os.walk`,
  `Path.exists`, `Path.is_dir`, `Path.iterdir` are functions over it.
* Python strings are Lean `String`s; `str.lower()` is modelled on the
  ASCII range; Python's string ordering (code-point lexicographic) is
  `strLt` below.
* Python `set`s are lists with membership semantics; `sorted(set(..))`
  is `sortedSet`, `sorted(list)` is `pySorted`.
-/

/-! ## String helpers (models of the Python string operations used) -/

/-- ASCII model of Python `str.lower` on a single character. -/
def lowerChar (c : Char) : Char :=
  if 65 ≤ c.toNat ∧ c.toNat ≤ 90 then Char.ofNat (c.toNat + 32) else c

/-- ASCII model of Python `str.lower`. -/
def lowerString (s : String) : String := String.mk (s.data.map lowerChar)

/-- Model of Python `s.startswith(".")`. -/
def strStartsWithDot (s : String) : Bool :=
  match s.data with
  | [] => false
  | c :: _ => c == '.'

/-- Model of Python `s.lstrip(".")`: drop all leading dots. -/
def stripLeadingDots (s : String) : String :=
  String.mk (s.data.dropWhile (fun c => c == '.'))

/-- Model of Python `s.endswith(t)`. -/
def strEndsWith (s t : String) : Bool :=
  List.isPrefixOf t.data.reverse s.data.reverse

/-- Model of Python `"." + s` (used by `_normalize_extensions`). -/
def dotPrefix (s : String) : String := String.mk ('.' :: s.data)

/-- Index of the last dot in a character list (Python `name.rfind('.')`,
restricted to the found case). -/
def rfindDot : List Char → Option Nat
  | [] => none
  | c :: cs =>
    match rfindDot cs with
    | some i => some (i + 1)
    | none => if c == '.' then some 0 else none

/-- Model of `pathlib.PurePath.suffix` on a file name:
`i = name.rfind('.'); name[i:] if 0 < i < len(name) - 1 else ""`. -/
def pySuffix (name : String) : String :=
  match rfindDot name.data with
  | some i => if 0 < i ∧ i < name.data.length - 1 then String.mk (name.data.drop i) else ""
  | none => ""

/-- Code-point lexicographic order on character lists: the order Python
uses to compare strings. -/
def charListLt : List Char → List Char → Bool
  | [], [] => false
  | [], _ :: _ => true
  | _ :: _, [] => false
  | a :: as, b :: bs =>
    if a.toNat < b.toNat then true
    else if b.toNat < a.toNat then false
    else charListLt as bs

/-- Python's `<` on strings (code-point lexicographic). -/
def strLt (s t : String) : Bool := charListLt s.data t.data

/-! ## Sorting (models of Python `sorted`) -/

/-- Insert into an ascending list, keeping duplicates. -/
def insertAsc (x : String) : List String → List String
  | [] => [x]
  | y :: ys => if strLt x y then x :: y :: ys else y :: insertAsc x ys

/-- Model of Python `sorted(l)` for a list of strings. -/
def pySorted : List String → List String
  | [] => []
  | x :: xs => insertAsc x (pySorted xs)

/-- Insert into a strictly ascending list, dropping duplicates. -/
def insertDedup (x : String) : List String → List String
  | [] => [x]
  | y :: ys =>
    if x = y then y :: ys
    else if strLt x y then x :: y :: ys
    else y :: insertDedup x ys

/-- Model of Python `sorted(set(l))` for a list of strings. -/
def sortedSet : List String → List String
  | [] => []
  | x :: xs => insertDedup x (sortedSet xs)

/-! ## Filesystem model -/

mutual
/-- A filesystem object: a regular file or a directory with named entries. -/
inductive Node where
  | file : Node
  | dir (children : Dirents) : Node
/-- The entries of a directory: an association list from names to nodes. -/
inductive Dirents where
  | nil : Dirents
  | cons (name : String) (node : Node) (rest : Dirents) : Dirents
end

/-- Build directory entries from a list of (name, node) pairs. -/
def mkEnts : List (String × Node) → Dirents
  | [] => .nil
  | (n, c) :: rest => .cons n c (mkEnts rest)

/-- Whether a node is a directory. -/
def Node.isDirB : Node → Bool
  | .file => false
  | .dir _ => true

/-- Look up a name among directory entries (first match). -/
def lookupChild : Dirents → String → Option Node
  | .nil, _ => none
  | .cons n c rest, name => if n == name then some c else lookupChild rest name

/-- Follow an absolute path (list of segments) from the filesystem root. -/
def lookupPath (fs : Node) : List String → Option Node
  | [] => some fs
  | s :: rest =>
    match fs with
    | .file => none
    | .dir cs =>
      match lookupChild cs s with
      | some c => lookupPath c rest
      | none => none

/-- Model of `p.exists()` for an absolute canonical path. -/
def existsAt (fs : Node) (p : List String) : Bool := (lookupPath fs p).isSome

/-- Model of `p.exists() and p.is_dir()` for an absolute canonical path. -/
def isDirAt (fs : Node) (p : List String) : Bool :=
  match lookupPath fs p with
  | some (.dir _) => true
  | _ => false

/-- Model of whether `node` has a directory child of the given name
(Python `(d / name).exists() and (d / name).is_dir()`). -/
def hasDirChild (node : Node) (name : String) : Bool :=
  match node with
  | .file => false
  | .dir cs =>
    match lookupChild cs name with
    | some (.dir _) => true
    | _ => false

/-- Model of `str(path)` for an absolute path: "/" for the root,
otherwise "/" before each segment. -/
def pathStr (p : List String) : String :=
  if p.isEmpty then "/" else String.join (p.map (fun s => "/" ++ s))

/-- Model of `pathlib.PurePath.parts` for an absolute path: the anchor
"/" followed by the segments. -/
def pyParts (p : List String) : List String := "/" :: p

/-! ## Constants and extension normalization
(from `get_all_source_files.py` lines 15-37) -/

/-- Default directory names that are excluded from scanning (any path
segment); Python `DEFAULT_EXCLUDE_DIRS`. -/
def DEFAULT_EXCLUDE_DIRS : List String := [".pio", ".git", "build", ".vscode", ".idea"]

/-- Default C++ source extensions; Python `DEFAULT_SOURCE_EXTENSIONS`. -/
def DEFAULT_SOURCE_EXTENSIONS : List String := [".h", ".hpp", ".cpp", ".cc", ".cxx"]

/-- Model of `_normalize_extensions`: lowercase every extension and make
it start with a dot; absent or empty input yields the lowered defaults.
The Python `Optional[List[str]]` argument is `Option (List String)`;
the returned `set` is a list with membership semantics. -/
def normalize_extensions (extensions : Option (List String)) : List String :=
  match extensions with
  | none => DEFAULT_SOURCE_EXTENSIONS.map lowerString
  | some [] => DEFAULT_SOURCE_EXTENSIONS.map lowerString
  | some l =>
    l.map (fun e =>
      let e2 := lowerString e
      if strStartsWithDot e2 then e2 else dotPrefix e2)

/-! ## Exclusion predicates (`_path_has_excluded_part`, `_path_under_any`) -/

/-- Model of `_path_has_excluded_part`: some segment of `path.parts`
(anchor included) is in `exclude_dirs`. -/
def path_has_excluded_part (p : List String) (excludeDirs : List String) : Bool :=
  (pyParts p).any (fun part => excludeDirs.contains part)

/-- Model of `_path_under_any`: the resolved path is equal to or nested
under one of the (absolute, resolved) exclude paths. -/
def path_under_any (p : List String) (excludePaths : List (List String)) : Bool :=
  excludePaths.any (fun ex => List.isPrefixOf ex p)

/-! ## Include-folder arguments -/

/-- A caller-supplied folder argument, pre-split into segments: either a
path relative to the walk root or an absolute path
(Python `os.path.isabs` distinguishes the two). -/
inductive FolderSpec where
  | rel (segs : List String) : FolderSpec
  | abs (segs : List String) : FolderSpec
deriving DecidableEq

/-- Whether a folder argument is relative. -/
def FolderSpec.isRel : FolderSpec → Bool
  | .rel _ => true
  | .abs _ => false

/-- Model of `root_path / folder if not os.path.isabs(folder) else Path(folder)`. -/
def resolveFolder (rootPath : List String) : FolderSpec → List String
  | .rel segs => rootPath ++ segs
  | .abs segs => segs

/-- Model of `Path(f).parts[0] if Path(f).parts else f`: the first
`parts` entry of a folder argument ("/" is the first part of an absolute
path; for an empty relative argument `parts` is empty and the code falls
back to the argument itself, modelled as ""). -/
def folderFirstPart : FolderSpec → String
  | .abs _ => "/"
  | .rel [] => ""
  | .rel (s :: _) => s

/-! ## The tree walker (`_walk_for_files`) -/

/-- The file-collection step of the `os.walk` loop body: for each plain
file among the entries, keep `cur ++ [name]` when its suffix, lowered,
is in the extension set. -/
def filesHere (exts : List String) (cur : List String) : Dirents → List (List String)
  | .nil => []
  | .cons name node rest =>
    (match node with
     | .file => if exts.contains (lowerString (pySuffix name)) then [cur ++ [name]] else []
     | .dir _ => []) ++ filesHere exts cur rest

mutual
/-- One visited directory of the `os.walk` loop in `_walk_for_files`:
prune when the directory's own absolute path has an excluded segment or
(when exclude paths were supplied) lies under an exclude path; otherwise
collect matching files and descend into child directories whose name is
not excluded. -/
def walkFrom (exts excl : List String) (exps : List (List String)) (cur : List String) : Node → List (List String)
  | .file => []
  | .dir cs =>
    if path_has_excluded_part cur excl then []
    else if !exps.isEmpty && path_under_any cur exps then []
    else filesHere exts cur cs ++ walkChildren exts excl exps cur cs
/-- Descent of `os.walk` into the child directories kept by
`dirs[:] = [d for d in dirs if d not in exclude_dirs]`. -/
def walkChildren (exts excl : List String) (exps : List (List String)) (cur : List String) : Dirents → List (List String)
  | .nil => []
  | .cons name node rest =>
    (if node.isDirB && !excl.contains name then
       walkFrom exts excl exps (cur ++ [name]) node
     else []) ++ walkChildren exts excl exps cur rest
end

/-- The `roots_to_walk` computation of `_walk_for_files`: with a truthy
`include_folders`, the resolved candidates that exist as directories,
falling back to the root itself when none does. -/
def rootsToWalk (fs : Node) (rootPath : List String) : Option (List FolderSpec) → List (List String)
  | some fl =>
    if fl.isEmpty then [rootPath]
    else
      let cands := (fl.map (resolveFolder rootPath)).filter (fun s => isDirAt fs s)
      if cands.isEmpty then [rootPath] else cands
  | none => [rootPath]

/-- Walk one entry of `roots_to_walk` (`for root, dirs, files in os.walk(start)`). -/
def walkStart (fs : Node) (exts excl : List String) (exps : List (List String)) (start : List String) : List (List String) :=
  match lookupPath fs start with
  | some n => walkFrom exts excl exps start n
  | none => []

/-- Model of `_walk_for_files`: resolve the root, return `[]` when it
does not exist or is not a directory, else walk every start root and
return the sorted list of collected absolute path strings. -/
def walk_for_files (fs : Node) (rootPath : List String) (exts : List String)
    (includeFolders : Option (List FolderSpec)) (excl : List String)
    (exps : Option (List (List String))) : List String :=
  if isDirAt fs rootPath then
    pySorted (((rootsToWalk fs rootPath includeFolders).flatMap
      (walkStart fs exts excl (exps.getD []))).map pathStr)
  else []

/-! ## Library discovery (`_discover_libraries_desktop`, `_discover_libraries_arduino`) -/

/-- The `build/_deps` iteration of `_discover_libraries_desktop`: keep a
child directory (skipping non-directories and hidden names) when its
name ends with "-src" or it has an `include` or `src` subdirectory;
deduplicate by the string form of the resolved path via `seen`. -/
def collectLibsDesktop (base : List String) : Dirents → List String → List (List String)
  | .nil, _ => []
  | .cons name node rest, seen =>
    if !node.isDirB || strStartsWithDot name then collectLibsDesktop base rest seen
    else if strEndsWith name "-src" || hasDirChild node "include" || hasDirChild node "src" then
      (if seen.contains (pathStr (base ++ [name])) then collectLibsDesktop base rest seen
       else (base ++ [name]) :: collectLibsDesktop base rest (pathStr (base ++ [name]) :: seen))
    else collectLibsDesktop base rest seen

/-- Model of `_discover_libraries_desktop`: look under
`project_dir/build/_deps`; empty when that location is absent or not a
directory. -/
def discover_libraries_desktop (fs : Node) (projectDir : List String) : List (List String) :=
  match lookupPath fs (projectDir ++ ["build", "_deps"]) with
  | some (.dir cs) => collectLibsDesktop (projectDir ++ ["build", "_deps"]) cs []
  | _ => []

/-- The inner loop of `_discover_libraries_arduino`: every directory
child of one environment directory is a library root, deduplicated by
the string form of the resolved path via `seen` (returned updated). -/
def collectLibsInEnv (envBase : List String) : Dirents → List String → List (List String) × List String
  | .nil, seen => ([], seen)
  | .cons name node rest, seen =>
    if node.isDirB then
      (if seen.contains (pathStr (envBase ++ [name])) then collectLibsInEnv envBase rest seen
       else
         let r := collectLibsInEnv envBase rest (pathStr (envBase ++ [name]) :: seen)
         ((envBase ++ [name]) :: r.1, r.2))
    else collectLibsInEnv envBase rest seen

/-- The outer loop of `_discover_libraries_arduino` over the environment
directories under `.pio/libdeps` (non-directories skipped). -/
def collectLibsArduino (base : List String) : Dirents → List String → List (List String)
  | .nil, _ => []
  | .cons envName (.dir libs) rest, seen =>
    let r := collectLibsInEnv (base ++ [envName]) libs seen
    r.1 ++ collectLibsArduino base rest r.2
  | .cons _ .file rest, seen => collectLibsArduino base rest seen

/-- Model of `_discover_libraries_arduino`: look under
`project_dir/.pio/libdeps`; empty when that location is absent or not a
directory. -/
def discover_libraries_arduino (fs : Node) (projectDir : List String) : List (List String) :=
  match lookupPath fs (projectDir ++ [".pio", "libdeps"]) with
  | some (.dir envs) => collectLibsArduino (projectDir ++ [".pio", "libdeps"]) envs []
  | _ => []

/-! ## Effective exclude sets and exclude paths (top-level functions) -/

/-- The transformation `get_all_files_desktop` and `get_all_files_arduino`
apply to each caller-supplied exclude name:
`d.lstrip(".") if d.startswith(".") else d`. -/
def pyExcludeDirTransform (d : String) : String :=
  if strStartsWithDot d then stripLeadingDots d else d

/-- The effective exclude-name set of `get_all_files_desktop` (lines
215-221): the defaults, the transformed caller names, and the first
`parts` entry of each caller exclude folder (set modelled as a list
with membership semantics; the Python truthiness guards are the
`isEmpty` tests). -/
def exclude_dir_set_desktop (excludeDirs : Option (List String))
    (excludeFolders : Option (List FolderSpec)) : List String :=
  let s := DEFAULT_EXCLUDE_DIRS
  let s2 :=
    match excludeDirs with
    | some l => if l.isEmpty then s else s ++ l.map pyExcludeDirTransform
    | none => s
  match excludeFolders with
  | some l => if l.isEmpty then s2 else s2 ++ l.map folderFirstPart
  | none => s2

/-- The effective exclude-name set of `get_all_files_arduino` (lines
282-288); the source adds the folder first-parts in a loop, modelled as
a fold. -/
def exclude_dir_set_arduino (excludeDirs : Option (List String))
    (excludeFolders : Option (List FolderSpec)) : List String :=
  let s := DEFAULT_EXCLUDE_DIRS
  let s2 :=
    match excludeDirs with
    | some l => if l.isEmpty then s else s ++ l.map pyExcludeDirTransform
    | none => s
  match excludeFolders with
  | some l => if l.isEmpty then s2 else l.foldl (fun acc f => acc ++ [folderFirstPart f]) s2
  | none => s2

/-- The exclude-path set built by both top-level functions: each caller
exclude folder, resolved against the project root when relative. -/
def exclude_paths_of (projectPath : List String)
    (excludeFolders : Option (List FolderSpec)) : List (List String) :=
  match excludeFolders with
  | some l =>
    if l.isEmpty then []
    else l.map (fun f =>
      match f with
      | .abs segs => segs
      | .rel segs => projectPath ++ segs)
  | none => []

/-! ## Top-level collectors (`get_all_files_desktop`, `get_all_files_arduino`) -/

/-- Model of `get_all_files_desktop`: walk the project, then (when
requested) each library discovered under `build/_deps` (without the
exclude-path set), and return the sorted union. -/
def get_all_files_desktop (fs : Node) (projectDir : List String)
    (fileExtensions : Option (List String)) (includeFolders : Option (List FolderSpec))
    (excludeFolders : Option (List FolderSpec)) (excludeDirs : Option (List String))
    (includeLibraries : Bool) : List String :=
  let extSet := normalize_extensions fileExtensions
  let exclSet := exclude_dir_set_desktop excludeDirs excludeFolders
  let exPaths := exclude_paths_of projectDir excludeFolders
  let projectFiles := walk_for_files fs projectDir extSet includeFolders exclSet
    (if exPaths.isEmpty then none else some exPaths)
  let libFiles :=
    if includeLibraries then
      (discover_libraries_desktop fs projectDir).flatMap
        (fun libRoot => walk_for_files fs libRoot extSet includeFolders exclSet none)
    else []
  sortedSet (projectFiles ++ libFiles)

/-- Model of `get_all_files_arduino`: walk the project, then (when
requested) each library discovered under `.pio/libdeps` (without the
exclude-path set), and return the sorted union. -/
def get_all_files_arduino (fs : Node) (projectDir : List String)
    (fileExtensions : Option (List String)) (includeFolders : Option (List FolderSpec))
    (excludeFolders : Option (List FolderSpec)) (excludeDirs : Option (List String))
    (includeLibraries : Bool) : List String :=
  let extSet := normalize_extensions fileExtensions
  let exclSet := exclude_dir_set_arduino excludeDirs excludeFolders
  let exPaths := exclude_paths_of projectDir excludeFolders
  let projectFiles := walk_for_files fs projectDir extSet includeFolders exclSet
    (if exPaths.isEmpty then none else some exPaths)
  let libFiles :=
    if includeLibraries then
      (discover_libraries_arduino fs projectDir).flatMap
        (fun libRoot => walk_for_files fs libRoot extSet includeFolders exclSet none)
    else []
  sortedSet (projectFiles ++ libFiles)

/-! ## Build-flavor dispatcher (`_is_cmake_build`) -/

/-- Python truthiness of `os.environ.get(name)`: set and non-empty. -/
def pyTruthy : Option String → Bool
  | none => false
  | some s => s != ""

/-- Model of `_is_cmake_build`: the `CMAKE_PROJECT_DIR` signal wins,
then the `PROJECT_DIR` signal, then the `build/_deps` vs `.pio/libdeps`
layout under a truthy `project_dir` (an absent or empty `project_dir`
argument is `none`), defaulting to `true` (desktop). -/
def is_cmake_build (envCmakeProjectDir envProjectDir : Option String)
    (fs : Node) (projectDir : Option (List String)) : Bool :=
  if pyTruthy envCmakeProjectDir then true
  else if pyTruthy envProjectDir then false
  else
    match projectDir with
    | some proj =>
      if existsAt fs (proj ++ ["build", "_deps"]) then true
      else if existsAt fs (proj ++ [".pio", "libdeps"]) then false
      else true
    | none => true

/-! ## Concrete filesystems used to evaluate the model -/

/-- A project whose only file is `build/_deps/zlib-src/include/zlib.h`
(the desktop example scenario of the spec). -/
def fsZlib : Node :=
  .dir (mkEnts [("proj", .dir (mkEnts [("build", .dir (mkEnts [("_deps",
    .dir (mkEnts [("zlib-src", .dir (mkEnts [("include",
    .dir (mkEnts [("zlib.h", .file)]))]))]))]))]))])

/-- A project whose only file is `.pio/libdeps/uno/Wire/src/Wire.h`
(the embedded example scenario of the spec). -/
def fsWire : Node :=
  .dir (mkEnts [("proj", .dir (mkEnts [(".pio", .dir (mkEnts [("libdeps",
    .dir (mkEnts [("uno", .dir (mkEnts [("Wire", .dir (mkEnts [("src",
    .dir (mkEnts [("Wire.h", .file)]))]))]))]))]))]))])

/-- A small project with one header file, used to exercise the
collectors on a concrete input. -/
def fsSmall : Node :=
  .dir (mkEnts [("proj", .dir (mkEnts [("a.h", .file)]))])

/-- A tree whose root path itself is named `build`. -/
def fsBuildRoot : Node :=
  .dir (mkEnts [("build", .dir (mkEnts [("x.h", .file)]))])

/-- A project with one source file inside a `src` subfolder and one at
top level, used to exercise `include_folders`. -/
def fsWithSrc : Node :=
  .dir (mkEnts [("proj", .dir (mkEnts [("src", .dir (mkEnts [("m.cpp", .file)])),
    ("top.cpp", .file)]))])

/-- A project containing a `build/_deps` directory, used to exercise the
dispatcher. -/
def fsDeps : Node :=
  .dir (mkEnts [("p", .dir (mkEnts [("build", .dir (mkEnts [("_deps", .dir .nil)]))]))])

/-- A project containing a `.pio/libdeps` directory but no `build/_deps`,
used to exercise the dispatcher. -/
def fsLibdeps : Node :=
  .dir (mkEnts [("p", .dir (mkEnts [(".pio", .dir (mkEnts [("libdeps", .dir .nil)]))]))])

/-! ## Order lemmas for the Python string order -/

theorem charToNat_inj {a b : Char} (h : a.toNat = b.toNat) : a = b :=
  Char.eq_of_val_eq (UInt32.ext h)

theorem charListLt_irrefl (l : List Char) : charListLt l l = false := by
  induction l with
  | nil => rfl
  | cons a as ih => simp [charListLt, ih]

theorem charListLt_trans {a b c : List Char} (h1 : charListLt a b = true)
    (h2 : charListLt b c = true) : charListLt a c = true := by
  induction a generalizing b c with
  | nil =>
    cases c with
    | nil =>
      cases b with
      | nil => simp [charListLt] at h1
      | cons y ys => simp [charListLt] at h2
    | cons z zs => simp [charListLt]
  | cons x xs ih =>
    cases b with
    | nil => simp [charListLt] at h1
    | cons y ys =>
      cases c with
      | nil => simp [charListLt] at h2
      | cons z zs =>
        simp only [charListLt] at h1 h2 ⊢
        rcases Nat.lt_trichotomy x.toNat y.toNat with hxy | hxy | hxy <;>
          rcases Nat.lt_trichotomy y.toNat z.toNat with hyz | hyz | hyz
        · simp [Nat.lt_trans hxy hyz]
        · simp [hyz ▸ hxy]
        · simp [hxy, Nat.lt_asymm hxy] at h1
          simp [Nat.lt_asymm hyz, hyz] at h2
        · simp [hxy ▸ hyz]
        · simp only [hxy, hyz] at h1 h2 ⊢
          simp only [Nat.lt_irrefl, if_false] at h1 h2 ⊢
          exact ih h1 h2
        · simp [Nat.lt_asymm hyz, hyz] at h2
        · simp [Nat.lt_asymm hxy, hxy] at h1
        · simp [Nat.lt_asymm hxy, hxy] at h1
        · simp [Nat.lt_asymm hxy, hxy] at h1

theorem charListLt_connex : ∀ (a b : List Char),
    charListLt a b = true ∨ a = b ∨ charListLt b a = true
  | [], [] => Or.inr (Or.inl rfl)
  | [], _ :: _ => Or.inl rfl
  | _ :: _, [] => Or.inr (Or.inr rfl)
  | x :: xs, y :: ys => by
    rcases Nat.lt_trichotomy x.toNat y.toNat with h | h | h
    · left
      simp [charListLt, h]
    · have hxy : x = y := charToNat_inj h
      subst hxy
      rcases charListLt_connex xs ys with h2 | h2 | h2
      · left
        simp [charListLt, h2]
      · right; left
        rw [h2]
      · right; right
        simp [charListLt, h2]
    · right; right
      simp [charListLt, h]

theorem strLt_irrefl (s : String) : strLt s s = false := charListLt_irrefl s.data

theorem strLt_trans {a b c : String} (h1 : strLt a b = true) (h2 : strLt b c = true) :
    strLt a c = true := charListLt_trans h1 h2

theorem strLt_connex (a b : String) : strLt a b = true ∨ a = b ∨ strLt b a = true := by
  rcases charListLt_connex a.data b.data with h | h | h
  · exact Or.inl h
  · refine Or.inr (Or.inl ?_)
    exact congrArg String.mk h
  · exact Or.inr (Or.inr h)

/-! ## Lemmas about the sorting models -/

theorem mem_insertAsc {a x : String} : ∀ {l : List String},
    a ∈ insertAsc x l ↔ a = x ∨ a ∈ l
  | [] => by simp [insertAsc]
  | y :: ys => by
    simp only [insertAsc]
    split
    · simp
    · simp only [List.mem_cons, mem_insertAsc (l := ys)]
      tauto

theorem mem_pySorted {a : String} : ∀ {l : List String}, a ∈ pySorted l ↔ a ∈ l
  | [] => by simp [pySorted]
  | x :: xs => by
    simp only [pySorted, mem_insertAsc, mem_pySorted (l := xs), List.mem_cons]

theorem mem_insertDedup {a x : String} : ∀ {l : List String},
    a ∈ insertDedup x l ↔ a = x ∨ a ∈ l
  | [] => by simp [insertDedup]
  | y :: ys => by
    simp only [insertDedup]
    split
    · rename_i hxy
      subst hxy
      simp only [List.mem_cons]
      tauto
    · split
      · simp
      · simp only [List.mem_cons, mem_insertDedup (l := ys)]
        tauto

theorem mem_sortedSet {a : String} : ∀ {l : List String}, a ∈ sortedSet l ↔ a ∈ l
  | [] => by simp [sortedSet]
  | x :: xs => by
    simp only [sortedSet, mem_insertDedup, mem_sortedSet (l := xs), List.mem_cons]

theorem pairwise_insertDedup {x : String} : ∀ {l : List String},
    l.Pairwise (fun a b => strLt a b = true) →
    (insertDedup x l).Pairwise (fun a b => strLt a b = true)
  | [], _ => by simp [insertDedup]
  | y :: ys, h => by
    rcases List.pairwise_cons.mp h with ⟨hy, hys⟩
    simp only [insertDedup]
    split
    · exact h
    · rename_i hne
      split
      · rename_i hlt
        refine List.pairwise_cons.mpr ⟨?_, h⟩
        intro z hz
        rcases List.mem_cons.mp hz with hz | hz
        · exact hz ▸ hlt
        · exact strLt_trans hlt (hy z hz)
      · rename_i hnlt
        refine List.pairwise_cons.mpr ⟨?_, pairwise_insertDedup hys⟩
        intro z hz
        rcases mem_insertDedup.mp hz with hz | hz
        · subst hz
          rcases strLt_connex z y with h3 | h3 | h3
          · exact absurd h3 (by simpa using hnlt)
          · exact absurd h3 hne
          · exact h3
        · exact hy z hz

theorem pairwise_sortedSet : ∀ (l : List String),
    (sortedSet l).Pairwise (fun a b => strLt a b = true)
  | [] => by simp [sortedSet]
  | x :: xs => by
    simp only [sortedSet]
    exact pairwise_insertDedup (pairwise_sortedSet xs)

/-! ## Soundness of the tree walk -/

theorem path_has_excluded_part_append {root segs : List String} {excl : List String}
    (h : path_has_excluded_part root excl = true) :
    path_has_excluded_part (root ++ segs) excl = true := by
  simp only [path_has_excluded_part, pyParts, List.any_cons, Bool.or_eq_true,
    List.any_eq_true] at h ⊢
  rcases h with h | ⟨x, hx, hc⟩
  · exact Or.inl h
  · exact Or.inr ⟨x, List.mem_append_left _ hx, hc⟩

theorem filesHere_sound {exts : List String} {cur : List String} :
    ∀ {ents : Dirents} {p : List String}, p ∈ filesHere exts cur ents →
    ∃ name, p = cur ++ [name] ∧ exts.contains (lowerString (pySuffix name)) = true
  | .nil, p, hp => by simp [filesHere] at hp
  | .cons name node rest, p, hp => by
    simp only [filesHere, List.mem_append] at hp
    rcases hp with hp | hp
    · cases node with
      | file =>
        by_cases hext : exts.contains (lowerString (pySuffix name)) = true
        · simp only [hext, if_true, List.mem_singleton] at hp
          exact ⟨name, hp, hext⟩
        · rw [if_neg hext] at hp
          simp at hp
      | dir cs => simp at hp
    · exact filesHere_sound hp

mutual
theorem walkFrom_sound {exts excl : List String} {exps : List (List String)} :
    ∀ {cur : List String} {node : Node} {p : List String}, p ∈ walkFrom exts excl exps cur node →
    ∃ parent name, p = parent ++ [name] ∧ cur <+: parent ∧
      path_has_excluded_part parent excl = false ∧
      exts.contains (lowerString (pySuffix name)) = true
  | cur, .file, p, hp => by simp [walkFrom] at hp
  | cur, .dir cs, p, hp => by
    rw [walkFrom] at hp
    by_cases h1 : path_has_excluded_part cur excl = true
    · simp [h1] at hp
    · by_cases h2 : (!List.isEmpty exps && path_under_any cur exps) = true
      · simp [h1, h2] at hp
      · rw [if_neg (by simp_all), if_neg h2, List.mem_append] at hp
        rcases hp with hp | hp
        · rcases filesHere_sound hp with ⟨name, hpe, hext⟩
          exact ⟨cur, name, hpe, List.prefix_refl cur,
            Bool.not_eq_true _ ▸ h1, hext⟩
        · exact walkChildren_sound hp
theorem walkChildren_sound {exts excl : List String} {exps : List (List String)} :
    ∀ {cur : List String} {ents : Dirents} {p : List String},
    p ∈ walkChildren exts excl exps cur ents →
    ∃ parent name, p = parent ++ [name] ∧ cur <+: parent ∧
      path_has_excluded_part parent excl = false ∧
      exts.contains (lowerString (pySuffix name)) = true
  | cur, .nil, p, hp => by simp [walkChildren] at hp
  | cur, .cons name node rest, p, hp => by
    rw [walkChildren, List.mem_append] at hp
    rcases hp with hp | hp
    · split at hp
      · rcases walkFrom_sound hp with ⟨parent, nm, hpe, hpre, hexc, hext⟩
        exact ⟨parent, nm, hpe,
          List.IsPrefix.trans (List.prefix_append cur [name]) hpre, hexc, hext⟩
      · simp at hp
    · exact walkChildren_sound hp
end

theorem walkStart_sound {fs : Node} {exts excl : List String} {exps : List (List String)}
    {start p : List String} (hp : p ∈ walkStart fs exts excl exps start) :
    ∃ parent name, p = parent ++ [name] ∧ start <+: parent ∧
      path_has_excluded_part parent excl = false ∧
      exts.contains (lowerString (pySuffix name)) = true := by
  unfold walkStart at hp
  cases h : lookupPath fs start with
  | none => simp [h] at hp
  | some n =>
    rw [h] at hp
    exact walkFrom_sound hp

theorem walk_for_files_mem {fs : Node} {rootPath : List String} {exts : List String}
    {ifl : Option (List FolderSpec)} {excl : List String} {exps : Option (List (List String))}
    {s : String} (hs : s ∈ walk_for_files fs rootPath exts ifl excl exps) :
    ∃ start ∈ rootsToWalk fs rootPath ifl, ∃ parent name,
      s = pathStr (parent ++ [name]) ∧ start <+: parent ∧
      path_has_excluded_part parent excl = false ∧
      exts.contains (lowerString (pySuffix name)) = true := by
  unfold walk_for_files at hs
  by_cases hdir : isDirAt fs rootPath = true
  · rw [if_pos hdir] at hs
    rcases List.mem_map.mp (mem_pySorted.mp hs) with ⟨p, hpmem, hps⟩
    rcases List.mem_flatMap.mp hpmem with ⟨start, hstart, hp⟩
    rcases walkStart_sound hp with ⟨parent, name, hpe, hpre, hexc, hext⟩
    exact ⟨start, hstart, parent, name, by rw [← hps, hpe], hpre, hexc, hext⟩
  · simp [hdir] at hs

/-! ## Lemmas about the roots that are walked -/

theorem rootsToWalk_mem {fs : Node} {rootPath r : List String} :
    ∀ {ifl : Option (List FolderSpec)}, r ∈ rootsToWalk fs rootPath ifl →
    r = rootPath ∨ ∃ spec ∈ ifl.getD [], r = resolveFolder rootPath spec ∧ isDirAt fs r = true := by
  intro ifl hr
  cases ifl with
  | none => simp [rootsToWalk] at hr; exact Or.inl hr
  | some fl =>
    simp only [rootsToWalk] at hr
    by_cases hfl : fl.isEmpty
    · rw [if_pos hfl] at hr
      simp at hr
      exact Or.inl hr
    · rw [if_neg hfl] at hr
      split at hr
      · simp at hr
        exact Or.inl hr
      · rcases List.mem_filter.mp hr with ⟨hmap, hdir⟩
        rcases List.mem_map.mp hmap with ⟨spec, hspec, hres⟩
        exact Or.inr ⟨spec, by simpa using hspec, hres.symm, hdir⟩

theorem rootsToWalk_of_candidates {fs : Node} {rootPath : List String} {fl : List FolderSpec}
    (hne : fl.isEmpty = false)
    (hcand : ((fl.map (resolveFolder rootPath)).filter (fun s => isDirAt fs s)).isEmpty = false) :
    rootsToWalk fs rootPath (some fl) =
      (fl.map (resolveFolder rootPath)).filter (fun s => isDirAt fs s) := by
  simp only [rootsToWalk, hne, Bool.false_eq_true, if_false]
  rw [if_neg (by simp_all)]

theorem rootsToWalk_fallback {fs : Node} {rootPath : List String} {fl : List FolderSpec}
    (h : ∀ spec ∈ fl, isDirAt fs (resolveFolder rootPath spec) = false) :
    rootsToWalk fs rootPath (some fl) = [rootPath] := by
  simp only [rootsToWalk]
  by_cases hfl : fl.isEmpty
  · rw [if_pos hfl]
  · rw [if_neg hfl, if_pos]
    rw [List.isEmpty_iff, List.filter_eq_nil_iff]
    intro a ha
    rcases List.mem_map.mp ha with ⟨spec, hspec, hres⟩
    simp [← hres, h spec hspec]

/-! ## Lemmas about ASCII lowercasing -/

theorem charOfNat_toNat_lower {n : Nat} (h1 : 97 ≤ n) (h2 : n ≤ 122) :
    (Char.ofNat n).toNat = n := by
  interval_cases n <;> rfl

theorem lowerChar_idem (c : Char) : lowerChar (lowerChar c) = lowerChar c := by
  unfold lowerChar
  by_cases h : 65 ≤ c.toNat ∧ c.toNat ≤ 90
  · rw [if_pos h]
    have hv : (Char.ofNat (c.toNat + 32)).toNat = c.toNat + 32 :=
      charOfNat_toNat_lower (by omega) (by omega)
    rw [if_neg (by rw [hv]; omega)]
  · rw [if_neg h, if_neg h]

theorem lowerString_idem (s : String) : lowerString (lowerString s) = lowerString s := by
  unfold lowerString
  refine congrArg String.mk ?_
  rw [List.map_map]
  exact List.map_congr_left (fun c _ => lowerChar_idem c)

theorem lowerString_dotPrefix (s : String) :
    lowerString (dotPrefix s) = dotPrefix (lowerString s) := by
  unfold lowerString dotPrefix
  refine congrArg String.mk ?_
  simp only [List.map_cons]
  rw [show lowerChar '.' = '.' from rfl]

theorem strStartsWithDot_dotPrefix (s : String) : strStartsWithDot (dotPrefix s) = true := by
  unfold strStartsWithDot dotPrefix
  simp

theorem strStartsWithDot_lowerString (s : String) :
    strStartsWithDot (lowerString s) = strStartsWithDot s := by
  unfold strStartsWithDot lowerString
  cases hd : s.data with
  | nil => rfl
  | cons c cs =>
    simp only [List.map_cons]
    unfold lowerChar
    by_cases h : 65 ≤ c.toNat ∧ c.toNat ≤ 90
    · rw [if_pos h]
      have hv : (Char.ofNat (c.toNat + 32)).toNat = c.toNat + 32 :=
        charOfNat_toNat_lower (by omega) (by omega)
      have h46 : ('.' : Char).toNat = 46 := by decide
      have hne : (Char.ofNat (c.toNat + 32) == '.') = false := by
        rw [beq_eq_false_iff_ne]
        intro he
        rw [he] at hv
        omega
      have hne2 : (c == '.') = false := by
        rw [beq_eq_false_iff_ne]
        intro he
        subst he
        omega
      rw [hne, hne2]
    · rw [if_neg h]

/-! ## Characterizing the effective exclude-name sets -/

theorem mem_foldl_firstPart {x : String} :
    ∀ {l : List FolderSpec} {acc : List String},
    (x ∈ l.foldl (fun acc f => acc ++ [folderFirstPart f]) acc) ↔
      x ∈ acc ∨ ∃ f ∈ l, folderFirstPart f = x
  | [], acc => by simp
  | g :: gs, acc => by
    rw [List.foldl_cons, mem_foldl_firstPart (l := gs)]
    simp only [List.mem_append, List.mem_cons, List.not_mem_nil, or_false]
    constructor
    · rintro (⟨h | h⟩ | ⟨f, hf, he⟩)
      · exact Or.inl h
      · exact Or.inr ⟨g, Or.inl rfl, h.symm⟩
      · exact Or.inr ⟨f, Or.inr hf, he⟩
    · rintro (h | ⟨f, hf | hf, he⟩)
      · exact Or.inl (Or.inl h)
      · exact Or.inl (Or.inr (hf ▸ he).symm)
      · exact Or.inr ⟨f, hf, he⟩

theorem mem_exclude_dir_set_desktop {edirs : Option (List String)}
    {efl : Option (List FolderSpec)} {x : String} :
    x ∈ exclude_dir_set_desktop edirs efl ↔
      x ∈ DEFAULT_EXCLUDE_DIRS ∨ (∃ d ∈ edirs.getD [], pyExcludeDirTransform d = x) ∨
        ∃ f ∈ efl.getD [], folderFirstPart f = x := by
  cases edirs with
  | none =>
    cases efl with
    | none => simp [exclude_dir_set_desktop]
    | some fl =>
      cases hfl : fl.isEmpty with
      | true =>
        rw [List.isEmpty_iff] at hfl
        subst hfl
        simp [exclude_dir_set_desktop]
      | false => simp [exclude_dir_set_desktop, hfl]
  | some ds =>
    cases hds : ds.isEmpty with
    | true =>
      rw [List.isEmpty_iff] at hds
      subst hds
      cases efl with
      | none => simp [exclude_dir_set_desktop]
      | some fl =>
        cases hfl : fl.isEmpty with
        | true =>
          rw [List.isEmpty_iff] at hfl
          subst hfl
          simp [exclude_dir_set_desktop]
        | false => simp [exclude_dir_set_desktop, hfl]
    | false =>
      cases efl with
      | none => simp [exclude_dir_set_desktop, hds]
      | some fl =>
        cases hfl : fl.isEmpty with
        | true =>
          rw [List.isEmpty_iff] at hfl
          subst hfl
          simp [exclude_dir_set_desktop, hds]
        | false =>
          simp [exclude_dir_set_desktop, hds, hfl, or_assoc]

theorem mem_exclude_dir_set_arduino {edirs : Option (List String)}
    {efl : Option (List FolderSpec)} {x : String} :
    x ∈ exclude_dir_set_arduino edirs efl ↔
      x ∈ DEFAULT_EXCLUDE_DIRS ∨ (∃ d ∈ edirs.getD [], pyExcludeDirTransform d = x) ∨
        ∃ f ∈ efl.getD [], folderFirstPart f = x := by
  cases edirs with
  | none =>
    cases efl with
    | none => simp [exclude_dir_set_arduino]
    | some fl =>
      cases hfl : fl.isEmpty with
      | true =>
        rw [List.isEmpty_iff] at hfl
        subst hfl
        simp [exclude_dir_set_arduino]
      | false => simp [exclude_dir_set_arduino, hfl, mem_foldl_firstPart]
  | some ds =>
    cases hds : ds.isEmpty with
    | true =>
      rw [List.isEmpty_iff] at hds
      subst hds
      cases efl with
      | none => simp [exclude_dir_set_arduino]
      | some fl =>
        cases hfl : fl.isEmpty with
        | true =>
          rw [List.isEmpty_iff] at hfl
          subst hfl
          simp [exclude_dir_set_arduino]
        | false => simp [exclude_dir_set_arduino, hfl, mem_foldl_firstPart]
    | false =>
      cases efl with
      | none => simp [exclude_dir_set_arduino, hds]
      | some fl =>
        cases hfl : fl.isEmpty with
        | true =>
          rw [List.isEmpty_iff] at hfl
          subst hfl
          simp [exclude_dir_set_arduino, hds]
        | false =>
          simp [exclude_dir_set_arduino, hds, hfl, mem_foldl_firstPart, or_assoc]

/-! ## Further helper lemmas -/

theorem walkFrom_excluded {exts excl : List String} {exps : List (List String)}
    {cur : List String} (node : Node) (h : path_has_excluded_part cur excl = true) :
    walkFrom exts excl exps cur node = [] := by
  cases node with
  | file => rw [walkFrom]
  | dir cs => rw [walkFrom, if_pos h]

theorem flatMap_eq_nil_of {α β : Type} {f : α → List β} :
    ∀ {l : List α}, (∀ a ∈ l, f a = []) → l.flatMap f = []
  | [], _ => rfl
  | x :: xs, h => by
    rw [List.flatMap_cons, h x (List.mem_cons_self x xs),
      flatMap_eq_nil_of (fun a ha => h a (List.mem_cons_of_mem x ha))]
    rfl

theorem path_has_excluded_part_eq_false_iff {p : List String} {excl : List String} :
    path_has_excluded_part p excl = false ↔ ∀ seg ∈ pyParts p, seg ∉ excl := by
  unfold path_has_excluded_part
  rw [List.any_eq_false]
  constructor
  · intro h seg hseg hmem
    exact h seg hseg (List.elem_iff.mpr hmem)
  · intro h seg hseg
    cases hc : excl.contains seg with
    | false => simp
    | true => exact absurd (List.elem_iff.mp hc) (h seg hseg)

theorem get_all_files_desktop_mem {fs : Node} {projectDir : List String}
    {fe : Option (List String)} {ifl efl : Option (List FolderSpec)}
    {edirs : Option (List String)} {il : Bool} {s : String}
    (hs : s ∈ get_all_files_desktop fs projectDir fe ifl efl edirs il) :
    ∃ parent name, s = pathStr (parent ++ [name]) ∧
      path_has_excluded_part parent (exclude_dir_set_desktop edirs efl) = false ∧
      (normalize_extensions fe).contains (lowerString (pySuffix name)) = true := by
  simp only [get_all_files_desktop] at hs
  rcases List.mem_append.mp (mem_sortedSet.mp hs) with h | h
  · rcases walk_for_files_mem h with ⟨_, _, parent, name, h1, _, h2, h3⟩
    exact ⟨parent, name, h1, h2, h3⟩
  · cases il with
    | false => simp at h
    | true =>
      rw [if_pos rfl] at h
      rcases List.mem_flatMap.mp h with ⟨libRoot, _, hw⟩
      rcases walk_for_files_mem hw with ⟨_, _, parent, name, h1, _, h2, h3⟩
      exact ⟨parent, name, h1, h2, h3⟩

theorem get_all_files_arduino_mem {fs : Node} {projectDir : List String}
    {fe : Option (List String)} {ifl efl : Option (List FolderSpec)}
    {edirs : Option (List String)} {il : Bool} {s : String}
    (hs : s ∈ get_all_files_arduino fs projectDir fe ifl efl edirs il) :
    ∃ parent name, s = pathStr (parent ++ [name]) ∧
      path_has_excluded_part parent (exclude_dir_set_arduino edirs efl) = false ∧
      (normalize_extensions fe).contains (lowerString (pySuffix name)) = true := by
  simp only [get_all_files_arduino] at hs
  rcases List.mem_append.mp (mem_sortedSet.mp hs) with h | h
  · rcases walk_for_files_mem h with ⟨_, _, parent, name, h1, _, h2, h3⟩
    exact ⟨parent, name, h1, h2, h3⟩
  · cases il with
    | false => simp at h
    | true =>
      rw [if_pos rfl] at h
      rcases List.mem_flatMap.mp h with ⟨libRoot, _, hw⟩
      rcases walk_for_files_mem hw with ⟨_, _, parent, name, h1, _, h2, h3⟩
      exact ⟨parent, name, h1, h2, h3⟩

/-! ## The claims -/

/-- C2: the claim states that when `build/_deps/zlib-src/include/zlib.h`
exists under the project root and `get_all_files_desktop` is called with
default arguments, the output includes that file's absolute path.  On
the concrete filesystem `fsZlib` the file exists and the library
discoverer finds `zlib-src`, yet the output is empty: the library walk
starts at a root whose own absolute path contains the excluded segment
`build`, so `_path_has_excluded_part` prunes the entire library walk,
contradicting the function's stated behavior of including libraries from
`build/_deps`. -/
theorem claim_C2_zlib_scenario :
    lookupPath fsZlib ["proj", "build", "_deps", "zlib-src", "include", "zlib.h"] = some .file
    ∧ discover_libraries_desktop fsZlib ["proj"] = [["proj", "build", "_deps", "zlib-src"]]
    ∧ get_all_files_desktop fsZlib ["proj"] none none none none true = []
    ∧ pathStr ["proj", "build", "_deps", "zlib-src", "include", "zlib.h"] ∉
        get_all_files_desktop fsZlib ["proj"] none none none none true := by
  refine ⟨rfl, rfl, rfl, ?_⟩
  rw [show get_all_files_desktop fsZlib ["proj"] none none none none true = [] from rfl]
  exact List.not_mem_nil _

/-- C3: the claim states that `get_all_files_arduino` includes
`.pio/libdeps/uno/Wire/src/Wire.h` while `get_all_files_desktop` does
not.  On the concrete filesystem `fsWire` the file exists and the
arduino library discoverer finds the `Wire` library, yet the arduino
output is empty (the library walk root's own path contains the excluded
segment `.pio`, so the walk is pruned); the desktop output indeed does
not contain the file. -/
theorem claim_C3_wire_scenario :
    lookupPath fsWire ["proj", ".pio", "libdeps", "uno", "Wire", "src", "Wire.h"] = some .file
    ∧ discover_libraries_arduino fsWire ["proj"] = [["proj", ".pio", "libdeps", "uno", "Wire"]]
    ∧ get_all_files_arduino fsWire ["proj"] none none none none true = []
    ∧ pathStr ["proj", ".pio", "libdeps", "uno", "Wire", "src", "Wire.h"] ∉
        get_all_files_arduino fsWire ["proj"] none none none none true
    ∧ pathStr ["proj", ".pio", "libdeps", "uno", "Wire", "src", "Wire.h"] ∉
        get_all_files_desktop fsWire ["proj"] none none none none true := by
  refine ⟨rfl, rfl, rfl, ?_, ?_⟩
  · rw [show get_all_files_arduino fsWire ["proj"] none none none none true = [] from rfl]
    exact List.not_mem_nil _
  · rw [show get_all_files_desktop fsWire ["proj"] none none none none true = [] from rfl]
    exact List.not_mem_nil _

/-- C4: when any path segment of the resolved walk root itself is in the
exclude-name set, the `os.walk` of that root collects nothing, and
`_walk_for_files` (with no include folders, or only relative ones, whose
resolution extends the root) returns the empty list. -/
theorem claim_C4_excluded_walk_root :
    ∀ (fs : Node) (rootPath : List String) (exts excl : List String)
      (ifl : Option (List FolderSpec)) (exps : Option (List (List String))),
    path_has_excluded_part rootPath excl = true →
    (∀ spec ∈ ifl.getD [], spec.isRel = true) →
    (∀ (node : Node) (exps2 : List (List String)),
      walkFrom exts excl exps2 rootPath node = [])
    ∧ walk_for_files fs rootPath exts ifl excl exps = [] := by
  intro fs rootPath exts excl ifl exps hexc hrel
  refine ⟨fun node exps2 => walkFrom_excluded node hexc, ?_⟩
  unfold walk_for_files
  by_cases hdir : isDirAt fs rootPath = true
  · rw [if_pos hdir]
    have hnil : (rootsToWalk fs rootPath ifl).flatMap
        (walkStart fs exts excl (exps.getD [])) = [] := by
      refine flatMap_eq_nil_of ?_
      intro start hstart
      have hstart2 : path_has_excluded_part start excl = true := by
        rcases rootsToWalk_mem hstart with h | ⟨spec, hspec, hres, _⟩
        · exact h ▸ hexc
        · cases spec with
          | rel segs => exact hres ▸ path_has_excluded_part_append hexc
          | abs segs => exact absurd (hrel _ hspec) (by simp [FolderSpec.isRel])
      unfold walkStart
      cases hl : lookupPath fs start with
      | none => rfl
      | some n => exact walkFrom_excluded n hstart2
    rw [hnil]
    rfl
  · rw [if_neg hdir]

/-- Witness for C4 at a concrete input: the root `/build` has the
excluded segment `build` in its own path, so the walk collects nothing
even though `x.h` lies beneath it. -/
theorem claim_C4_witness :
    walk_for_files fsBuildRoot ["build"] [".h"] none DEFAULT_EXCLUDE_DIRS none = [] :=
  (claim_C4_excluded_walk_root fsBuildRoot ["build"] [".h"] DEFAULT_EXCLUDE_DIRS none none
    (by decide) (by intro spec h; simp at h)).2

/-- C7: when the (resolved) root does not exist or is not a directory,
`_walk_for_files` returns the empty list. -/
theorem claim_C7_missing_root_empty :
    ∀ (fs : Node) (rootPath : List String) (exts : List String)
      (ifl : Option (List FolderSpec)) (excl : List String)
      (exps : Option (List (List String))),
    isDirAt fs rootPath = false →
    walk_for_files fs rootPath exts ifl excl exps = [] := by
  intro fs rootPath exts ifl excl exps h
  unfold walk_for_files
  rw [if_neg (by simp [h])]

/-- Witness for C7 at a concrete input: the root `/missing` does not
exist in an empty filesystem. -/
theorem claim_C7_witness :
    walk_for_files (.dir .nil) ["missing"] [".h"] none DEFAULT_EXCLUDE_DIRS none = [] :=
  claim_C7_missing_root_empty (.dir .nil) ["missing"] [".h"] none DEFAULT_EXCLUDE_DIRS none rfl

/-- C1: every output of `get_all_files_desktop` and `get_all_files_arduino`
is strictly ascending in Python's string order (hence duplicate-free),
and every returned path is the string form of a path whose file name has
its lowered suffix in the active extension set and none of whose
directory segments (anchor included) is in the effective exclude-name
set — so no returned file lies under a name-pruned directory. -/
theorem claim_C1_sorted_dedup_filtered :
    ∀ (fs : Node) (projectDir : List String) (fe : Option (List String))
      (ifl efl : Option (List FolderSpec)) (edirs : Option (List String)) (il : Bool),
    ((get_all_files_desktop fs projectDir fe ifl efl edirs il).Pairwise
        (fun a b => strLt a b = true)
      ∧ ∀ s ∈ get_all_files_desktop fs projectDir fe ifl efl edirs il,
          ∃ parent name, s = pathStr (parent ++ [name])
            ∧ lowerString (pySuffix name) ∈ normalize_extensions fe
            ∧ ∀ seg ∈ pyParts parent, seg ∉ exclude_dir_set_desktop edirs efl)
    ∧ ((get_all_files_arduino fs projectDir fe ifl efl edirs il).Pairwise
        (fun a b => strLt a b = true)
      ∧ ∀ s ∈ get_all_files_arduino fs projectDir fe ifl efl edirs il,
          ∃ parent name, s = pathStr (parent ++ [name])
            ∧ lowerString (pySuffix name) ∈ normalize_extensions fe
            ∧ ∀ seg ∈ pyParts parent, seg ∉ exclude_dir_set_arduino edirs efl) := by
  intro fs projectDir fe ifl efl edirs il
  refine ⟨⟨pairwise_sortedSet _, ?_⟩, pairwise_sortedSet _, ?_⟩
  · intro s hs
    rcases get_all_files_desktop_mem hs with ⟨parent, name, h1, h2, h3⟩
    exact ⟨parent, name, h1, List.elem_iff.mp h3,
      path_has_excluded_part_eq_false_iff.mp h2⟩
  · intro s hs
    rcases get_all_files_arduino_mem hs with ⟨parent, name, h1, h2, h3⟩
    exact ⟨parent, name, h1, List.elem_iff.mp h3,
      path_has_excluded_part_eq_false_iff.mp h2⟩

/-- Witness for C1 at a concrete input: `/proj/a.h` is in the output of
`get_all_files_desktop` on `fsSmall` with default arguments, and the
theorem yields its decomposition. -/
theorem claim_C1_witness :
    ∃ parent name, "/proj/a.h" = pathStr (parent ++ [name])
      ∧ lowerString (pySuffix name) ∈ normalize_extensions none
      ∧ ∀ seg ∈ pyParts parent, seg ∉ exclude_dir_set_desktop none none :=
  (claim_C1_sorted_dedup_filtered fsSmall ["proj"] none none none none true).1.2
    "/proj/a.h" (by decide)

/-- C5: for every walk, every returned path is the string form of a path
none of whose directory segments is in the exclude-name set: a directory
whose name is excluded is pruned at any depth, and no file beneath it is
returned. -/
theorem claim_C5_name_pruning :
    ∀ (fs : Node) (rootPath : List String) (exts : List String)
      (ifl : Option (List FolderSpec)) (excl : List String)
      (exps : Option (List (List String))),
    ∀ s ∈ walk_for_files fs rootPath exts ifl excl exps,
      ∃ parent name, s = pathStr (parent ++ [name])
        ∧ ∀ seg ∈ pyParts parent, seg ∉ excl := by
  intro fs rootPath exts ifl excl exps s hs
  rcases walk_for_files_mem hs with ⟨_, _, parent, name, h1, _, h2, _⟩
  exact ⟨parent, name, h1, path_has_excluded_part_eq_false_iff.mp h2⟩

/-- Witness for C5 at a concrete input. -/
theorem claim_C5_witness :
    ∃ parent name, "/proj/a.h" = pathStr (parent ++ [name])
      ∧ ∀ seg ∈ pyParts parent, seg ∉ DEFAULT_EXCLUDE_DIRS :=
  claim_C5_name_pruning fsSmall ["proj"] [".h"] none DEFAULT_EXCLUDE_DIRS none
    "/proj/a.h" (by decide)

/-- C6: with a non-empty `include_folders`, every returned file lies
under one of the named subfolders that exists as a directory (each
resolved against the root unless absolute), and when none of the named
subfolders exists as a directory the walker returns exactly what a walk
of the whole root returns. -/
theorem claim_C6_include_subfolders :
    ∀ (fs : Node) (rootPath : List String) (exts : List String) (fl : List FolderSpec)
      (excl : List String) (exps : Option (List (List String))), fl ≠ [] →
    ((∃ spec ∈ fl, isDirAt fs (resolveFolder rootPath spec) = true) →
      ∀ s ∈ walk_for_files fs rootPath exts (some fl) excl exps,
        ∃ spec ∈ fl, isDirAt fs (resolveFolder rootPath spec) = true ∧
          ∃ parent name, s = pathStr (parent ++ [name]) ∧
            resolveFolder rootPath spec <+: parent)
    ∧ ((∀ spec ∈ fl, isDirAt fs (resolveFolder rootPath spec) = false) →
      walk_for_files fs rootPath exts (some fl) excl exps =
        walk_for_files fs rootPath exts none excl exps) := by
  intro fs rootPath exts fl excl exps hflne
  constructor
  · intro hex s hs
    rcases walk_for_files_mem hs with ⟨start, hstart, parent, name, h1, hpre, _, _⟩
    have hne : fl.isEmpty = false := by
      cases fl with
      | nil => exact absurd rfl hflne
      | cons g gs => rfl
    rcases hex with ⟨spec0, hspec0, hdir0⟩
    have hc0 : resolveFolder rootPath spec0 ∈
        (fl.map (resolveFolder rootPath)).filter (fun s => isDirAt fs s) :=
      List.mem_filter.mpr ⟨List.mem_map_of_mem _ hspec0, hdir0⟩
    have hcne : ((fl.map (resolveFolder rootPath)).filter
        (fun s => isDirAt fs s)).isEmpty = false := by
      by_cases hl : ((fl.map (resolveFolder rootPath)).filter
          (fun s => isDirAt fs s)).isEmpty = true
      · rw [List.isEmpty_iff] at hl
        rw [hl] at hc0
        simp at hc0
      · simpa using hl
    rw [rootsToWalk_of_candidates hne hcne] at hstart
    rcases List.mem_filter.mp hstart with ⟨hmap, hdir⟩
    rcases List.mem_map.mp hmap with ⟨spec, hspec, hres⟩
    subst hres
    exact ⟨spec, hspec, hdir, parent, name, h1, hpre⟩
  · intro hall
    unfold walk_for_files
    rw [rootsToWalk_fallback hall]
    simp [rootsToWalk]

/-- Witness for C6 at concrete inputs: with `include_folders = ["src"]`
on a project that has a `src` child, the collected file `/proj/src/m.cpp`
lies under `/proj/src`; with `include_folders = ["nosuch"]`, the walker
behaves exactly like a whole-root walk. -/
theorem claim_C6_witness :
    (∃ spec ∈ [FolderSpec.rel ["src"]],
       isDirAt fsWithSrc (resolveFolder ["proj"] spec) = true ∧
       ∃ parent name, "/proj/src/m.cpp" = pathStr (parent ++ [name]) ∧
         resolveFolder ["proj"] spec <+: parent)
    ∧ walk_for_files fsWithSrc ["proj"] [".cpp"] (some [FolderSpec.rel ["nosuch"]]) [] none =
        walk_for_files fsWithSrc ["proj"] [".cpp"] none [] none :=
  ⟨(claim_C6_include_subfolders fsWithSrc ["proj"] [".cpp"] [FolderSpec.rel ["src"]] [] none
      (by simp)).1 ⟨FolderSpec.rel ["src"], by simp, by decide⟩
      "/proj/src/m.cpp" (by decide),
   (claim_C6_include_subfolders fsWithSrc ["proj"] [".cpp"] [FolderSpec.rel ["nosuch"]] [] none
      (by simp)).2 (by
        intro spec hspec
        simp at hspec
        subst hspec
        decide)⟩

/-- C8: every member of the normalized extension set is lowercase (fixed
under ASCII lowering) and begins with a dot; absent or empty input
yields exactly the fixed default extension set, which is non-empty. -/
theorem claim_C8_normalize_extensions :
    ∀ (exts : Option (List String)),
    (∀ m ∈ normalize_extensions exts, lowerString m = m ∧ strStartsWithDot m = true)
    ∧ ((exts = none ∨ exts = some []) →
        normalize_extensions exts = DEFAULT_SOURCE_EXTENSIONS
          ∧ normalize_extensions exts ≠ []) := by
  intro exts
  constructor
  · intro m hm
    cases exts with
    | none =>
      rw [show normalize_extensions none = DEFAULT_SOURCE_EXTENSIONS from by decide] at hm
      fin_cases hm <;> exact ⟨by decide, by decide⟩
    | some l =>
      cases l with
      | nil =>
        rw [show normalize_extensions (some []) = DEFAULT_SOURCE_EXTENSIONS from by decide] at hm
        fin_cases hm <;> exact ⟨by decide, by decide⟩
      | cons e es =>
        rcases List.mem_map.mp hm with ⟨e0, he0, he⟩
        have he2 : m = if strStartsWithDot (lowerString e0) then lowerString e0
            else dotPrefix (lowerString e0) := he.symm
        by_cases hsd : strStartsWithDot (lowerString e0) = true
        · rw [he2, if_pos hsd]
          exact ⟨lowerString_idem e0, hsd⟩
        · rw [he2, if_neg hsd]
          refine ⟨?_, strStartsWithDot_dotPrefix _⟩
          rw [lowerString_dotPrefix, lowerString_idem]
  · rintro (rfl | rfl)
    · exact ⟨by decide, by decide⟩
    · exact ⟨by decide, by decide⟩

/-- Witness for C8 at concrete inputs: normalizing `["HPP"]` produces the
lowercase dotted `.hpp`, and absent input produces the default set. -/
theorem claim_C8_witness :
    (lowerString ".hpp" = ".hpp" ∧ strStartsWithDot ".hpp" = true)
    ∧ (normalize_extensions none = DEFAULT_SOURCE_EXTENSIONS
        ∧ normalize_extensions none ≠ []) :=
  ⟨(claim_C8_normalize_extensions (some ["HPP"])).1 ".hpp" (by decide),
   (claim_C8_normalize_extensions none).2 (Or.inl rfl)⟩

/-- C9 counterexample: the claim says caller-supplied exclude names are
merged "as given", but both collectors strip all leading dots from a
caller name that begins with a dot: with `exclude_dirs = [".foo"]` the
effective set contains `foo` and does not contain the given name
`.foo`. -/
theorem claim_C9_counterexample :
    (".foo" : String) ∈ [".foo"]
    ∧ ".foo" ∉ exclude_dir_set_desktop (some [".foo"]) none
    ∧ ".foo" ∉ exclude_dir_set_arduino (some [".foo"]) none
    ∧ "foo" ∈ exclude_dir_set_desktop (some [".foo"]) none
    ∧ "foo" ∈ exclude_dir_set_arduino (some [".foo"]) none := by decide

/-- C9 amended: for both collectors, the effective exclude-name set is
exactly the default set, merged with every caller-supplied exclude name
after stripping all leading dots from names that begin with a dot, and
with the first `parts` entry of every caller-supplied exclude-folder
path. -/
theorem claim_C9_amended_exclude_set :
    ∀ (edirs : Option (List String)) (efl : Option (List FolderSpec)) (x : String),
    (x ∈ exclude_dir_set_desktop edirs efl ↔
      x ∈ DEFAULT_EXCLUDE_DIRS ∨ (∃ d ∈ edirs.getD [], pyExcludeDirTransform d = x) ∨
        ∃ f ∈ efl.getD [], folderFirstPart f = x)
    ∧ (x ∈ exclude_dir_set_arduino edirs efl ↔
      x ∈ DEFAULT_EXCLUDE_DIRS ∨ (∃ d ∈ edirs.getD [], pyExcludeDirTransform d = x) ∨
        ∃ f ∈ efl.getD [], folderFirstPart f = x) :=
  fun _ _ _ => ⟨mem_exclude_dir_set_desktop, mem_exclude_dir_set_arduino⟩

/-- C10: the dispatcher prefers the desktop environment signal (even when
the embedded one is also present), then the embedded signal; with
neither signal it chooses desktop when `build/_deps` exists under the
project directory, embedded when it does not but `.pio/libdeps` does,
and desktop when neither exists. -/
theorem claim_C10_dispatcher :
    ∀ (envCmake envPio : Option String) (fs : Node) (proj : List String),
    (pyTruthy envCmake = true →
      is_cmake_build envCmake envPio fs (some proj) = true)
    ∧ (pyTruthy envCmake = false → pyTruthy envPio = true →
      is_cmake_build envCmake envPio fs (some proj) = false)
    ∧ (pyTruthy envCmake = false → pyTruthy envPio = false →
      (existsAt fs (proj ++ ["build", "_deps"]) = true →
        is_cmake_build envCmake envPio fs (some proj) = true)
      ∧ (existsAt fs (proj ++ ["build", "_deps"]) = false →
         existsAt fs (proj ++ [".pio", "libdeps"]) = true →
        is_cmake_build envCmake envPio fs (some proj) = false)
      ∧ (existsAt fs (proj ++ ["build", "_deps"]) = false →
         existsAt fs (proj ++ [".pio", "libdeps"]) = false →
        is_cmake_build envCmake envPio fs (some proj) = true)) := by
  intro envCmake envPio fs proj
  refine ⟨?_, ?_, ?_⟩
  · intro h
    simp [is_cmake_build, h]
  · intro h1 h2
    simp [is_cmake_build, h1, h2]
  · intro h1 h2
    refine ⟨?_, ?_, ?_⟩
    · intro h3
      simp [is_cmake_build, h1, h2, h3]
    · intro h3 h4
      simp [is_cmake_build, h1, h2, h3, h4]
    · intro h3 h4
      simp [is_cmake_build, h1, h2, h3, h4]

/-- Witness for C10 at concrete inputs, one per decision branch. -/
theorem claim_C10_witness :
    is_cmake_build (some "/p") (some "/q") (.dir .nil) (some ["x"]) = true
    ∧ is_cmake_build none (some "/q") (.dir .nil) (some ["x"]) = false
    ∧ is_cmake_build none none fsDeps (some ["p"]) = true
    ∧ is_cmake_build none none fsLibdeps (some ["p"]) = false
    ∧ is_cmake_build none none (.dir .nil) (some ["p"]) = true :=
  ⟨(claim_C10_dispatcher (some "/p") (some "/q") (.dir .nil) ["x"]).1 (by decide),
   (claim_C10_dispatcher none (some "/q") (.dir .nil) ["x"]).2.1 rfl (by decide),
   ((claim_C10_dispatcher none none fsDeps ["p"]).2.2 rfl rfl).1 (by decide),
   ((claim_C10_dispatcher none none fsLibdeps ["p"]).2.2 rfl rfl).2.1 (by decide) (by decide),
   ((claim_C10_dispatcher none none (.dir .nil) ["p"]).2.2 rfl rfl).2.2 (by decide) (by decide)⟩
